import Mathlib

/-!
Shallow embedding of the RK4 N-body integrator (rk_nbody.py and rk_3body.py),
with 64-bit floating point idealised as exact real arithmetic.  Each
definition mirrors one Python function or loop body of the source.
-/

namespace NBody

/-- Mirrors `class Body` of both source files: mass, 2-D position and
2-D velocity. -/
@[ext]
structure Body where
  M : ℝ
  x : ℝ
  y : ℝ
  vx : ℝ
  vy : ℝ

/-- Mirrors `Body.distance` of rk_3body.py:
`math.sqrt((rhs.x - self.x)**2 + (rhs.y - self.y)**2)`. -/
noncomputable def Body.distance (self rhs : Body) : ℝ :=
  Real.sqrt ((rhs.x - self.x) ^ 2 + (rhs.y - self.y) ^ 2)

/-- One iteration of the inner pair loop of `f1` (rk_nbody.py lines 42-50):
given the running accumulator `(dv_x[i0], dv_y[i0])` and the body `rhs`,
add the contribution `GM*rdiff/rcubed` of `rhs` to both components. -/
noncomputable def pairStep (G : ℝ) (lhs : Body) (acc : ℝ × ℝ) (rhs : Body) : ℝ × ℝ :=
  let GM := -G * rhs.M
  let rdiff_x := lhs.x - rhs.x
  let rdiff_y := lhs.y - rhs.y
  let rcubed := ((rhs.x - lhs.x) ^ 2 + (rhs.y - lhs.y) ^ 2) ^ ((3 : ℝ) / 2)
  (acc.1 + GM * rdiff_x / rcubed, acc.2 + GM * rdiff_y / rcubed)

/-- The accumulation of `f1`'s inner loop over a given list of other
bodies, starting from the initialisation `dv_x[i0] = dv_y[i0] = 0.0`. -/
noncomputable def accelOf (G : ℝ) (lhs : Body) (others : List Body) : ℝ × ℝ :=
  others.foldl (pairStep G lhs) (0, 0)

/-- Mirrors the comprehension `[b for i1, b in enumerate(bodies) if i0 != i1]`
of rk_nbody.py line 42. -/
def others (bodies : List Body) (i0 : ℕ) : List Body :=
  (bodies.enum.filter (fun p => i0 ≠ p.1)).map Prod.snd

/-- The 4-tuple of parallel lists `dv_x, dv_y, vx, vy` returned by `f1`. -/
structure Deriv4 where
  dv_x : List ℝ
  dv_y : List ℝ
  vx : List ℝ
  vy : List ℝ

/-- Mirrors `f1` of rk_nbody.py (lines 35-52): for each body `i0`, the
acceleration pair accumulated over every other body, and the body's own
velocity components copied into `vx`, `vy`. -/
noncomputable def f1 (G : ℝ) (bodies : List Body) : Deriv4 where
  dv_x := bodies.enum.map fun p => (accelOf G p.2 (others bodies p.1)).1
  dv_y := bodies.enum.map fun p => (accelOf G p.2 (others bodies p.1)).2
  vx := bodies.map Body.vx
  vy := bodies.map Body.vy

/-- Mirrors `make_increment_args` of rk_nbody.py (lines 57-71): each body is
displaced to `Body(b.M, b.x + vx[idx]*h, b.y + vy[idx]*h,
b.vx + dv_x[idx]*h, b.vy + dv_y[idx]*h)`.  (All call sites pass lists of
the same length as `bodies`, so the `getD` default is never consulted.) -/
noncomputable def make_increment_args (bodies : List Body)
    (dv_x dv_y vx vy : List ℝ) (h : ℝ) : List Body :=
  bodies.enum.map fun p =>
    { M := p.2.M
      x := p.2.x + vx.getD p.1 0 * h
      y := p.2.y + vy.getD p.1 0 * h
      vx := p.2.vx + dv_x.getD p.1 0 * h
      vy := p.2.vy + dv_y.getD p.1 0 * h }

/-- Mirrors one iteration of the main `while` loop of rk_nbody.py
(lines 168-189): the four slope evaluations `k1..k4`, each intermediate
argument list built from `bodies` by `make_increment_args`, and the final
per-body update `b.x + 1/6*(k1 + 2*(k2 + k3) + k4)*h` (likewise for `y`,
`vx`, `vy`).  The source writes the resulting values back into the input
`Body` objects; this function returns the written values. -/
noncomputable def rk4step (G h : ℝ) (bodies : List Body) : List Body :=
  let k1 := f1 G bodies
  let inc1 := make_increment_args bodies k1.dv_x k1.dv_y k1.vx k1.vy (h / 2)
  let k2 := f1 G inc1
  let inc2 := make_increment_args bodies k2.dv_x k2.dv_y k2.vx k2.vy (h / 2)
  let k3 := f1 G inc2
  let inc3 := make_increment_args bodies k3.dv_x k3.dv_y k3.vx k3.vy h
  let k4 := f1 G inc3
  bodies.enum.map fun p =>
    { M := p.2.M
      x := p.2.x +
        1 / 6 * (k1.vx.getD p.1 0 + 2 * (k2.vx.getD p.1 0 + k3.vx.getD p.1 0)
          + k4.vx.getD p.1 0) * h
      y := p.2.y +
        1 / 6 * (k1.vy.getD p.1 0 + 2 * (k2.vy.getD p.1 0 + k3.vy.getD p.1 0)
          + k4.vy.getD p.1 0) * h
      vx := p.2.vx +
        1 / 6 * (k1.dv_x.getD p.1 0 + 2 * (k2.dv_x.getD p.1 0 + k3.dv_x.getD p.1 0)
          + k4.dv_x.getD p.1 0) * h
      vy := p.2.vy +
        1 / 6 * (k1.dv_y.getD p.1 0 + 2 * (k2.dv_y.getD p.1 0 + k3.dv_y.getD p.1 0)
          + k4.dv_y.getD p.1 0) * h }

/-- Mirrors `f0` of rk_3body.py (lines 34-58): the fixed-arity 3-body
derivative of `b0` under the attraction of `b1` and `b2`, computing
`rcubed` as `b0.distance(bi)**3`. -/
noncomputable def f0 (G : ℝ) (b0 b1 b2 : Body) : ℝ × ℝ × ℝ × ℝ :=
  let GM_1 := -G * b1.M
  let rdiff_x_1 := b0.x - b1.x
  let rdiff_y_1 := b0.y - b1.y
  let rcubed_1 := b0.distance b1 ^ 3
  let dv_x_1 := 0 + GM_1 * rdiff_x_1 / rcubed_1
  let dv_y_1 := 0 + GM_1 * rdiff_y_1 / rcubed_1
  let GM_2 := -G * b2.M
  let rdiff_x_2 := b0.x - b2.x
  let rdiff_y_2 := b0.y - b2.y
  let rcubed_2 := b0.distance b2 ^ 3
  (dv_x_1 + GM_2 * rdiff_x_2 / rcubed_2, dv_y_1 + GM_2 * rdiff_y_2 / rcubed_2,
    b0.vx, b0.vy)

/-- The per-body record `(dv_x[i], dv_y[i], vx[i], vy[i])` of the kernel
result: the tuple the main loop destructures as `ki_x, ki_y, ki_vx, ki_vy`
for body `i`. -/
noncomputable def derivAt (G : ℝ) (bodies : List Body) (i : ℕ) : ℝ × ℝ × ℝ × ℝ :=
  ((f1 G bodies).dv_x.getD i 0, (f1 G bodies).dv_y.getD i 0,
    (f1 G bodies).vx.getD i 0, (f1 G bodies).vy.getD i 0)

/-- The simulated time after `n` iterations of the loop footer `t += h`,
starting from `t = 0` (rk_nbody.py line 161/191, rk_3body.py line 124/256). -/
def tAfter (h : ℝ) : ℕ → ℝ
  | 0 => 0
  | n + 1 => tAfter h n + h

/-! ## Helper lemmas -/

/-- The x- and y-contributions of one other body, as accumulated by
`pairStep`. -/
noncomputable def contribX (G : ℝ) (lhs rhs : Body) : ℝ :=
  -G * rhs.M * (lhs.x - rhs.x) /
    ((rhs.x - lhs.x) ^ 2 + (rhs.y - lhs.y) ^ 2) ^ ((3 : ℝ) / 2)

/-- The y-contribution of one other body. -/
noncomputable def contribY (G : ℝ) (lhs rhs : Body) : ℝ :=
  -G * rhs.M * (lhs.y - rhs.y) /
    ((rhs.x - lhs.x) ^ 2 + (rhs.y - lhs.y) ^ 2) ^ ((3 : ℝ) / 2)

lemma foldl_pairStep (G : ℝ) (lhs : Body) :
    ∀ (l : List Body) (a b : ℝ),
      l.foldl (pairStep G lhs) (a, b) =
        (a + (l.map (contribX G lhs)).sum, b + (l.map (contribY G lhs)).sum) := by
  intro l
  induction l with
  | nil => intro a b; simp
  | cons r t ih =>
    intro a b
    simp only [List.foldl_cons, List.map_cons, List.sum_cons, pairStep, ih,
      Prod.mk.injEq, contribX, contribY]
    exact ⟨add_assoc _ _ _, add_assoc _ _ _⟩

lemma accelOf_eq_sums (G : ℝ) (lhs : Body) (l : List Body) :
    accelOf G lhs l =
      ((l.map (contribX G lhs)).sum, (l.map (contribY G lhs)).sum) := by
  rw [accelOf, foldl_pairStep]
  simp

lemma others_enumFrom (k : ℕ) :
    ∀ (l : List Body) (n : ℕ),
      ((l.enumFrom n).filter (fun p => k ≠ p.1)).map Prod.snd =
        if n ≤ k then l.eraseIdx (k - n) else l := by
  intro l
  induction l with
  | nil => intro n; simp
  | cons a t ih =>
    intro n
    rw [List.enumFrom_cons, List.filter_cons]
    by_cases hkn : k = n
    · subst hkn
      rw [if_neg (by simp), ih, if_neg (by omega), if_pos (le_refl k),
        Nat.sub_self, List.eraseIdx_cons_zero]
    · rw [if_pos (by simp [hkn]), List.map_cons, ih]
      by_cases hnk : n + 1 ≤ k
      · rw [if_pos hnk, if_pos (by omega)]
        have h2 : k - n = (k - (n + 1)) + 1 := by omega
        rw [h2, List.eraseIdx_cons_succ]
      · rw [if_neg hnk, if_neg (by omega)]

lemma others_eq_eraseIdx (bodies : List Body) (i : ℕ) :
    others bodies i = bodies.eraseIdx i := by
  have := others_enumFrom i bodies 0
  simpa [others, List.enum_eq_enumFrom] using this

lemma getD_enum_map (g : ℕ × Body → ℝ) (l : List Body) (i : ℕ)
    (hi : i < l.length) :
    ((l.enum.map g).getD i 0) = g (i, l[i]) := by
  have hlen : i < (l.enum.map g).length := by
    simpa using hi
  rw [List.getD_eq_getElem _ _ hlen]
  simp

lemma getD_map_field (g : Body → ℝ) (l : List Body) (i : ℕ)
    (hi : i < l.length) : ((l.map g).getD i 0) = g l[i] := by
  have hlen : i < (l.map g).length := by simpa using hi
  rw [List.getD_eq_getElem _ _ hlen]
  simp

/-- Sum of a mapped list as a sum over its index type. -/
lemma sum_map_eq_sum_fin (f : Body → ℝ) (l : List Body) :
    (l.map f).sum = ∑ j : Fin l.length, f (l.get j) := by
  conv_lhs => rw [← List.ofFn_get l]
  rw [List.map_ofFn, List.sum_ofFn]
  simp [Function.comp]

lemma sum_map_eraseIdx (f : Body → ℝ) :
    ∀ (l : List Body) (i : ℕ) (hi : i < l.length),
      ((l.eraseIdx i).map f).sum = (l.map f).sum - f l[i] := by
  intro l
  induction l with
  | nil => intro i hi; simp at hi
  | cons a t ih =>
    intro i hi
    cases i with
    | zero => simp
    | succ j =>
      have hj : j < t.length := by simpa using hi
      simp only [List.eraseIdx_cons_succ, List.map_cons, List.sum_cons,
        ih j hj, List.getElem_cons_succ]
      ring

/-- The kernel's per-body record, in closed form: the accumulated pair
contributions over the list of all other bodies, and the body's own
velocity. -/
lemma derivAt_eq (G : ℝ) (bodies : List Body) (i : ℕ) (hi : i < bodies.length) :
    derivAt G bodies i =
      ((accelOf G bodies[i] (bodies.eraseIdx i)).1,
       (accelOf G bodies[i] (bodies.eraseIdx i)).2,
       bodies[i].vx, bodies[i].vy) := by
  simp only [derivAt, f1]
  rw [getD_enum_map _ bodies i hi, getD_enum_map _ bodies i hi,
    getD_map_field Body.vx bodies i hi, getD_map_field Body.vy bodies i hi,
    others_eq_eraseIdx]

lemma accelOf_fst (G : ℝ) (lhs : Body) (l : List Body) :
    (accelOf G lhs l).1 = (l.map (contribX G lhs)).sum := by
  rw [accelOf_eq_sums]

lemma accelOf_snd (G : ℝ) (lhs : Body) (l : List Body) :
    (accelOf G lhs l).2 = (l.map (contribY G lhs)).sum := by
  rw [accelOf_eq_sums]

/-- The x-component of the accumulated acceleration of body `i` as a sum
over the index set with `i` removed. -/
lemma accel_fst_eq_sum (G : ℝ) (bodies : List Body) (i : ℕ)
    (hi : i < bodies.length) :
    (accelOf G bodies[i] (bodies.eraseIdx i)).1 =
      ∑ j ∈ Finset.univ.erase (⟨i, hi⟩ : Fin bodies.length),
        contribX G bodies[i] (bodies.get j) := by
  rw [accelOf_fst, sum_map_eraseIdx _ bodies i hi, sum_map_eq_sum_fin,
    Finset.sum_erase_eq_sub (Finset.mem_univ _)]
  simp [List.get_eq_getElem]

/-- The y-component analogue of `accel_fst_eq_sum`. -/
lemma accel_snd_eq_sum (G : ℝ) (bodies : List Body) (i : ℕ)
    (hi : i < bodies.length) :
    (accelOf G bodies[i] (bodies.eraseIdx i)).2 =
      ∑ j ∈ Finset.univ.erase (⟨i, hi⟩ : Fin bodies.length),
        contribY G bodies[i] (bodies.get j) := by
  rw [accelOf_snd, sum_map_eraseIdx _ bodies i hi, sum_map_eq_sum_fin,
    Finset.sum_erase_eq_sub (Finset.mem_univ _)]
  simp [List.get_eq_getElem]

lemma sqrt_cube_eq_rpow (d : ℝ) (hd : 0 ≤ d) :
    Real.sqrt d ^ 3 = d ^ ((3 : ℝ) / 2) := by
  rw [Real.sqrt_eq_rpow, ← Real.rpow_natCast (d ^ ((1 : ℝ) / 2)) 3,
    ← Real.rpow_mul hd]
  norm_num

lemma sq_sub_comm (a b : ℝ) : (a - b) ^ 2 = (b - a) ^ 2 := by ring

/-- `contribX` written with the displacement `lhs - rhs` inside the squares,
as the spec states `r³`. -/
lemma contribX_claim_form (G : ℝ) (lhs rhs : Body) :
    contribX G lhs rhs =
      -G * rhs.M * (lhs.x - rhs.x) /
        ((lhs.x - rhs.x) ^ 2 + (lhs.y - rhs.y) ^ 2) ^ ((3 : ℝ) / 2) := by
  rw [contribX, sq_sub_comm rhs.x lhs.x, sq_sub_comm rhs.y lhs.y]

/-- `contribY` analogue of `contribX_claim_form`. -/
lemma contribY_claim_form (G : ℝ) (lhs rhs : Body) :
    contribY G lhs rhs =
      -G * rhs.M * (lhs.y - rhs.y) /
        ((lhs.x - rhs.x) ^ 2 + (lhs.y - rhs.y) ^ 2) ^ ((3 : ℝ) / 2) := by
  rw [contribY, sq_sub_comm rhs.x lhs.x, sq_sub_comm rhs.y lhs.y]

lemma f1_dv_x_getD (G : ℝ) (bodies : List Body) (i : ℕ)
    (hi : i < bodies.length) :
    (f1 G bodies).dv_x.getD i 0 =
      (accelOf G bodies[i] (bodies.eraseIdx i)).1 := by
  simp only [f1]
  rw [getD_enum_map _ bodies i hi, others_eq_eraseIdx]

lemma f1_dv_y_getD (G : ℝ) (bodies : List Body) (i : ℕ)
    (hi : i < bodies.length) :
    (f1 G bodies).dv_y.getD i 0 =
      (accelOf G bodies[i] (bodies.eraseIdx i)).2 := by
  simp only [f1]
  rw [getD_enum_map _ bodies i hi, others_eq_eraseIdx]

/-! ## Claim C1 -/

/-- Claim C1: for every state (no two bodies coincident) and every body
index `i`, the kernel `f1` returns acceleration components equal to the sum
over all other bodies `j ≠ i` of `-G·M_j·(x_i - x_j)/r³` and
`-G·M_j·(y_i - y_j)/r³` with `r³ = ((x_i - x_j)² + (y_i - y_j)²)^(3/2)`,
and velocity components equal to body `i`'s current velocity. -/
theorem kernel_is_pairwise_gravity_sum (G : ℝ) (bodies : List Body) (i : ℕ)
    (hi : i < bodies.length)
    (hnc : bodies.Pairwise fun a b => a.x ≠ b.x ∨ a.y ≠ b.y) :
    (f1 G bodies).dv_x.getD i 0 =
        (∑ j ∈ Finset.univ.erase (⟨i, hi⟩ : Fin bodies.length),
          -G * (bodies.get j).M * (bodies[i].x - (bodies.get j).x) /
            ((bodies[i].x - (bodies.get j).x) ^ 2 +
              (bodies[i].y - (bodies.get j).y) ^ 2) ^ ((3 : ℝ) / 2)) ∧
    (f1 G bodies).dv_y.getD i 0 =
        (∑ j ∈ Finset.univ.erase (⟨i, hi⟩ : Fin bodies.length),
          -G * (bodies.get j).M * (bodies[i].y - (bodies.get j).y) /
            ((bodies[i].x - (bodies.get j).x) ^ 2 +
              (bodies[i].y - (bodies.get j).y) ^ 2) ^ ((3 : ℝ) / 2)) ∧
    (f1 G bodies).vx.getD i 0 = bodies[i].vx ∧
    (f1 G bodies).vy.getD i 0 = bodies[i].vy := by
  refine ⟨?_, ?_, ?_, ?_⟩
  · rw [f1_dv_x_getD G bodies i hi, accel_fst_eq_sum G bodies i hi]
    exact Finset.sum_congr rfl fun j _ => contribX_claim_form G _ _
  · rw [f1_dv_y_getD G bodies i hi, accel_snd_eq_sum G bodies i hi]
    exact Finset.sum_congr rfl fun j _ => contribY_claim_form G _ _
  · simp only [f1]
    exact getD_map_field Body.vx bodies i hi
  · simp only [f1]
    exact getD_map_field Body.vy bodies i hi

/-- Two concrete non-coincident bodies used as witness inputs. -/
noncomputable def wB1 : Body := ⟨1, 0, 0, 3, 4⟩

/-- Second witness body. -/
noncomputable def wB2 : Body := ⟨2, 1, 0, -1, 5⟩

theorem kernel_is_pairwise_gravity_sum_witness :
    (0 < ([wB1, wB2] : List Body).length) ∧
    (([wB1, wB2] : List Body).Pairwise fun a b => a.x ≠ b.x ∨ a.y ≠ b.y) ∧
    ((f1 1 [wB1, wB2]).dv_x.getD 0 0 =
        (∑ j ∈ Finset.univ.erase
            (⟨0, by norm_num⟩ : Fin ([wB1, wB2] : List Body).length),
          -1 * (([wB1, wB2] : List Body).get j).M *
              (wB1.x - (([wB1, wB2] : List Body).get j).x) /
            ((wB1.x - (([wB1, wB2] : List Body).get j).x) ^ 2 +
              (wB1.y - (([wB1, wB2] : List Body).get j).y) ^ 2) ^
                ((3 : ℝ) / 2)) ∧
      (f1 1 [wB1, wB2]).dv_y.getD 0 0 =
        (∑ j ∈ Finset.univ.erase
            (⟨0, by norm_num⟩ : Fin ([wB1, wB2] : List Body).length),
          -1 * (([wB1, wB2] : List Body).get j).M *
              (wB1.y - (([wB1, wB2] : List Body).get j).y) /
            ((wB1.x - (([wB1, wB2] : List Body).get j).x) ^ 2 +
              (wB1.y - (([wB1, wB2] : List Body).get j).y) ^ 2) ^
                ((3 : ℝ) / 2)) ∧
      (f1 1 [wB1, wB2]).vx.getD 0 0 = wB1.vx ∧
      (f1 1 [wB1, wB2]).vy.getD 0 0 = wB1.vy) := by
  have hnc : ([wB1, wB2] : List Body).Pairwise
      fun a b => a.x ≠ b.x ∨ a.y ≠ b.y := by
    norm_num [List.pairwise_cons, wB1, wB2]
  exact ⟨by norm_num, hnc,
    kernel_is_pairwise_gravity_sum 1 [wB1, wB2] 0 (by norm_num) hnc⟩

/-! ## Claim C2 -/

/-- Stated from the spec's words: an intermediate RK4 state is built by
displacing the original step-start state by a slope times `c` — each
body's position moves by the slope's velocity entry times `c` and its
velocity by the slope's acceleration entry times `c`, keeping the mass. -/
noncomputable def specDisplace (state : List Body) (k : Deriv4) (c : ℝ) :
    List Body :=
  state.enum.map fun p =>
    { M := p.2.M
      x := p.2.x + k.vx.getD p.1 0 * c
      y := p.2.y + k.vy.getD p.1 0 * c
      vx := p.2.vx + k.dv_x.getD p.1 0 * c
      vy := p.2.vy + k.dv_y.getD p.1 0 * c }

/-- Stated from the spec's words: the textbook RK4 step.  Slopes
`k1 = Kernel(state)`, `k2 = Kernel(s1)`, `k3 = Kernel(s2)`,
`k4 = Kernel(s3)`, with `s1`, `s2`, `s3` displacing the original
step-start state by the most recent slope times `h/2`, `h/2`, `h`; the
result per body and coordinate is `position + h/6·(k1.v + 2·(k2.v + k3.v)
+ k4.v)` and `velocity + h/6·(k1.a + 2·(k2.a + k3.a) + k4.a)`. -/
noncomputable def specRK4 (G h : ℝ) (state : List Body) : List Body :=
  let k1 := f1 G state
  let s1 := specDisplace state k1 (h / 2)
  let k2 := f1 G s1
  let s2 := specDisplace state k2 (h / 2)
  let k3 := f1 G s2
  let s3 := specDisplace state k3 h
  let k4 := f1 G s3
  state.enum.map fun p =>
    { M := p.2.M
      x := p.2.x + h / 6 * (k1.vx.getD p.1 0
        + 2 * (k2.vx.getD p.1 0 + k3.vx.getD p.1 0) + k4.vx.getD p.1 0)
      y := p.2.y + h / 6 * (k1.vy.getD p.1 0
        + 2 * (k2.vy.getD p.1 0 + k3.vy.getD p.1 0) + k4.vy.getD p.1 0)
      vx := p.2.vx + h / 6 * (k1.dv_x.getD p.1 0
        + 2 * (k2.dv_x.getD p.1 0 + k3.dv_x.getD p.1 0) + k4.dv_x.getD p.1 0)
      vy := p.2.vy + h / 6 * (k1.dv_y.getD p.1 0
        + 2 * (k2.dv_y.getD p.1 0 + k3.dv_y.getD p.1 0) + k4.dv_y.getD p.1 0) }

/-- A spec displacement is exactly the source's `make_increment_args`
applied to the slope's four parallel lists. -/
lemma specDisplace_eq_make_increment_args (state : List Body) (k : Deriv4)
    (c : ℝ) :
    specDisplace state k c =
      make_increment_args state k.dv_x k.dv_y k.vx k.vy c := rfl

/-- Claim C2: one RK4 step of the source equals the textbook RK4 step: the
slopes are the four kernel evaluations, every intermediate state displaces
the original step-start state (never a previous intermediate) by the most
recent slope times `h/2`, `h/2`, `h`, and the result is position +
`h/6·(k1.v + 2·(k2.v + k3.v) + k4.v)` and velocity +
`h/6·(k1.a + 2·(k2.a + k3.a) + k4.a)` per body and coordinate. -/
theorem rk4step_is_textbook_rk4 (G h : ℝ) (state : List Body) :
    specRK4 G h state = rk4step G h state := by
  simp only [specRK4, rk4step, specDisplace_eq_make_increment_args]
  refine List.map_congr_left fun p _ => ?_
  refine Body.ext rfl ?_ ?_ ?_ ?_ <;> ring

/-! ## Mass-preservation helpers -/

lemma map_M_enum_map (f : ℕ × Body → Body) (hf : ∀ p, (f p).M = p.2.M)
    (s : List Body) : (s.enum.map f).map Body.M = s.map Body.M := by
  rw [List.map_map]
  have h1 : Body.M ∘ f = fun p : ℕ × Body => p.2.M := funext fun p => hf p
  have h2 : (fun p : ℕ × Body => p.2.M) = Body.M ∘ Prod.snd := rfl
  rw [h1, h2, ← List.map_map, List.enum_eq_enumFrom, List.enumFrom_map_snd]

lemma make_increment_args_map_M (s : List Body) (dv_x dv_y vx vy : List ℝ)
    (h : ℝ) :
    (make_increment_args s dv_x dv_y vx vy h).map Body.M = s.map Body.M := by
  simp only [make_increment_args]
  refine map_M_enum_map _ (fun p => ?_) s
  rfl

lemma rk4step_map_M (G h : ℝ) (s : List Body) :
    (rk4step G h s).map Body.M = s.map Body.M := by
  simp only [rk4step]
  refine map_M_enum_map _ (fun p => ?_) s
  rfl

lemma iterate_rk4step_map_M (G h : ℝ) (s : List Body) (n : ℕ) :
    ((rk4step G h)^[n] s).map Body.M = s.map Body.M := by
  induction n with
  | zero => rfl
  | succ m ih => rw [Function.iterate_succ_apply', rk4step_map_M, ih]

lemma rk4step_length (G h : ℝ) (s : List Body) :
    (rk4step G h s).length = s.length := by
  simp only [rk4step, List.length_map, List.enum_length]

/-! ## Single-body computation -/

lemma f1_singleton (G : ℝ) (b : Body) :
    f1 G [b] = ⟨[0], [0], [b.vx], [b.vy]⟩ := rfl

lemma rk4step_singleton (G h : ℝ) (b : Body) :
    rk4step G h [b] =
      [⟨b.M, b.x + h * b.vx, b.y + h * b.vy, b.vx, b.vy⟩] := by
  have h1 : rk4step G h [b] = [⟨b.M,
      b.x + 1 / 6 * (b.vx + 2 * ((b.vx + 0 * (h / 2)) + (b.vx + 0 * (h / 2)))
        + (b.vx + 0 * h)) * h,
      b.y + 1 / 6 * (b.vy + 2 * ((b.vy + 0 * (h / 2)) + (b.vy + 0 * (h / 2)))
        + (b.vy + 0 * h)) * h,
      b.vx + 1 / 6 * (0 + 2 * (0 + 0) + 0) * h,
      b.vy + 1 / 6 * (0 + 2 * (0 + 0) + 0) * h⟩] := rfl
  rw [h1]
  refine congrArg (fun z => [z]) ?_
  refine Body.ext rfl ?_ ?_ ?_ ?_ <;> ring

/-! ## Claim C3 -/

/-- Claim C3 counterexample: the source's step does not leave the input
state's bodies with their original values — the end-of-step update
(rk_nbody.py lines 186-189, rk_3body.py lines 241-254) assigns the
advanced values into the very `Body` objects of the input state, so after
one step with `G = 1`, `h = 6` a single body at the origin with velocity
`(1, 0)` holds position `(6, 0)`, not its original `(0, 0)`. -/
theorem step_overwrites_input_counterexample :
    rk4step 1 6 [⟨1, 0, 0, 1, 0⟩] ≠ [(⟨1, 0, 0, 1, 0⟩ : Body)] := by
  rw [rk4step_singleton]
  intro hEq
  norm_num [List.cons.injEq, Body.mk.injEq] at hEq

/-- Claim C3 as amended: the step computes the advanced state as a pure
function of the input state's values and the loop writes it into the input
bodies in place; after a step the input holds the advanced state — with
the same number of bodies and every body's mass unchanged — rather than
its original position and velocity values. -/
theorem step_advances_state_preserving_masses (G h : ℝ) (s : List Body) :
    (rk4step G h s).length = s.length ∧
    (rk4step G h s).map Body.M = s.map Body.M :=
  ⟨rk4step_length G h s, rk4step_map_M G h s⟩

/-! ## Claim C4 -/

lemma distance_cubed (p q : Body) :
    p.distance q ^ 3 = ((q.x - p.x) ^ 2 + (q.y - p.y) ^ 2) ^ ((3 : ℝ) / 2) := by
  rw [Body.distance]
  exact sqrt_cube_eq_rpow _ (by positivity)

lemma f0_eq_contribs (G : ℝ) (b0 b1 b2 : Body) :
    f0 G b0 b1 b2 =
      (0 + contribX G b0 b1 + contribX G b0 b2,
       0 + contribY G b0 b1 + contribY G b0 b2, b0.vx, b0.vy) := by
  simp only [f0, contribX, contribY, distance_cubed]

lemma accelOf_pair (G : ℝ) (lhs a c : Body) :
    accelOf G lhs [a, c] =
      (0 + contribX G lhs a + contribX G lhs c,
       0 + contribY G lhs a + contribY G lhs c) := by
  simp only [accelOf, List.foldl_cons, List.foldl_nil, pairStep,
    contribX, contribY]

/-- Claim C4: for three pairwise non-coincident bodies, the fixed-arity
3-body derivative `f0` of rk_3body.py is the `N = 3` case of the generic
kernel `f1` of rk_nbody.py, at each of the three argument orders the
3-body main loop uses — even though `f0` computes `r³` through
`distance(·)³` (a square root cubed) and `f1` through
`(dx² + dy²)^(3/2)`. -/
theorem f0_is_f1_specialised_to_three (G : ℝ) (b1 b2 b3 : Body)
    (h12 : b1.x ≠ b2.x ∨ b1.y ≠ b2.y)
    (h13 : b1.x ≠ b3.x ∨ b1.y ≠ b3.y)
    (h23 : b2.x ≠ b3.x ∨ b2.y ≠ b3.y) :
    f0 G b1 b2 b3 = derivAt G [b1, b2, b3] 0 ∧
    f0 G b2 b1 b3 = derivAt G [b1, b2, b3] 1 ∧
    f0 G b3 b1 b2 = derivAt G [b1, b2, b3] 2 := by
  refine ⟨?_, ?_, ?_⟩
  · rw [derivAt_eq G [b1, b2, b3] 0 (by norm_num)]
    show f0 G b1 b2 b3 =
      ((accelOf G b1 [b2, b3]).1, (accelOf G b1 [b2, b3]).2, b1.vx, b1.vy)
    rw [f0_eq_contribs, accelOf_pair]
  · rw [derivAt_eq G [b1, b2, b3] 1 (by norm_num)]
    show f0 G b2 b1 b3 =
      ((accelOf G b2 [b1, b3]).1, (accelOf G b2 [b1, b3]).2, b2.vx, b2.vy)
    rw [f0_eq_contribs, accelOf_pair]
  · rw [derivAt_eq G [b1, b2, b3] 2 (by norm_num)]
    show f0 G b3 b1 b2 =
      ((accelOf G b3 [b1, b2]).1, (accelOf G b3 [b1, b2]).2, b3.vx, b3.vy)
    rw [f0_eq_contribs, accelOf_pair]

/-- Third witness body, placed off the line of the first two. -/
noncomputable def wB3 : Body := ⟨1, 0, 1, 0, -2⟩

theorem f0_is_f1_specialised_to_three_witness :
    (wB1.x ≠ wB2.x ∨ wB1.y ≠ wB2.y) ∧
    (wB1.x ≠ wB3.x ∨ wB1.y ≠ wB3.y) ∧
    (wB2.x ≠ wB3.x ∨ wB2.y ≠ wB3.y) ∧
    (f0 1 wB1 wB2 wB3 = derivAt 1 [wB1, wB2, wB3] 0 ∧
      f0 1 wB2 wB1 wB3 = derivAt 1 [wB1, wB2, wB3] 1 ∧
      f0 1 wB3 wB1 wB2 = derivAt 1 [wB1, wB2, wB3] 2) := by
  have h12 : wB1.x ≠ wB2.x ∨ wB1.y ≠ wB2.y :=
    Or.inl (by norm_num [wB1, wB2])
  have h13 : wB1.x ≠ wB3.x ∨ wB1.y ≠ wB3.y :=
    Or.inr (by norm_num [wB1, wB3])
  have h23 : wB2.x ≠ wB3.x ∨ wB2.y ≠ wB3.y :=
    Or.inl (by norm_num [wB2, wB3])
  exact ⟨h12, h13, h23,
    f0_is_f1_specialised_to_three 1 wB1 wB2 wB3 h12 h13 h23⟩

/-! ## Claim C5 -/

lemma contribX_zero_mass (G : ℝ) (lhs t : Body) (ht : t.M = 0) :
    contribX G lhs t = 0 := by
  simp [contribX, ht]

lemma contribY_zero_mass (G : ℝ) (lhs t : Body) (ht : t.M = 0) :
    contribY G lhs t = 0 := by
  simp [contribY, ht]

/-- A zero-mass body anywhere in the inner-loop list contributes nothing
to the accumulated acceleration. -/
lemma accelOf_append_zero_mass (G : ℝ) (lhs : Body) (o1 o2 : List Body)
    (t : Body) (ht : t.M = 0) :
    accelOf G lhs (o1 ++ t :: o2) = accelOf G lhs (o1 ++ o2) := by
  rw [accelOf_eq_sums, accelOf_eq_sums]
  simp [List.map_append, List.sum_append, contribX_zero_mass G lhs t ht,
    contribY_zero_mass G lhs t ht]

/-- Claim C5: a body of mass exactly 0, not coincident with any other
body, contributes zero to every other body's kernel result (removing it
changes nothing for them, up to the index shift its removal causes), while
its own acceleration is the normal pairwise sum over all the other
bodies. -/
theorem zero_mass_tracer (G : ℝ) (l1 l2 : List Body) (t : Body)
    (ht : t.M = 0)
    (hnc : ∀ b ∈ l1 ++ l2, b.x ≠ t.x ∨ b.y ≠ t.y) :
    (∀ i (hi : i < (l1 ++ t :: l2).length), i ≠ l1.length →
      derivAt G (l1 ++ t :: l2) i =
        derivAt G (l1 ++ l2) (if i < l1.length then i else i - 1)) ∧
    derivAt G (l1 ++ t :: l2) l1.length =
      (∑ j : Fin (l1 ++ l2).length,
          -G * ((l1 ++ l2).get j).M * (t.x - ((l1 ++ l2).get j).x) /
            ((t.x - ((l1 ++ l2).get j).x) ^ 2 +
              (t.y - ((l1 ++ l2).get j).y) ^ 2) ^ ((3 : ℝ) / 2),
        ∑ j : Fin (l1 ++ l2).length,
          -G * ((l1 ++ l2).get j).M * (t.y - ((l1 ++ l2).get j).y) /
            ((t.x - ((l1 ++ l2).get j).x) ^ 2 +
              (t.y - ((l1 ++ l2).get j).y) ^ 2) ^ ((3 : ℝ) / 2),
        t.vx, t.vy) := by
  constructor
  · intro i hi hne
    have hiLen : i < l1.length + l2.length + 1 := by
      simpa [List.length_append, Nat.add_assoc] using hi
    by_cases hlt : i < l1.length
    · rw [if_pos hlt]
      have hi2 : i < (l1 ++ l2).length := by
        simp only [List.length_append]
        omega
      rw [derivAt_eq G _ _ hi, derivAt_eq G _ _ hi2]
      have hgf : (l1 ++ t :: l2)[i] = l1[i] := List.getElem_append_left hlt
      have hgr : (l1 ++ l2)[i] = l1[i] := List.getElem_append_left hlt
      have hef : (l1 ++ t :: l2).eraseIdx i = l1.eraseIdx i ++ t :: l2 :=
        List.eraseIdx_append_of_lt_length hlt (t :: l2)
      have her : (l1 ++ l2).eraseIdx i = l1.eraseIdx i ++ l2 :=
        List.eraseIdx_append_of_lt_length hlt l2
      simp only [hgf, hgr, hef, her]
      rw [accelOf_append_zero_mass G l1[i] (l1.eraseIdx i) l2 t ht]
    · rw [if_neg hlt]
      obtain ⟨j, hj, rfl⟩ : ∃ j, j < l2.length ∧ i = l1.length + 1 + j :=
        ⟨i - l1.length - 1, by omega, by omega⟩
      have hi2 : l1.length + 1 + j - 1 < (l1 ++ l2).length := by
        simp only [List.length_append]
        omega
      rw [derivAt_eq G _ _ hi, derivAt_eq G _ _ hi2]
      have e1 : l1.length + 1 + j - 1 = l1.length + j := by omega
      have hgf : (l1 ++ t :: l2)[l1.length + 1 + j] = l2[j] := by
        rw [List.getElem_append_right (by omega)]
        have e2 : l1.length + 1 + j - l1.length = j + 1 := by omega
        simp only [e2, List.getElem_cons_succ]
      have hgr : (l1 ++ l2)[l1.length + 1 + j - 1] = l2[j] := by
        simp only [e1]
        rw [List.getElem_append_right (by omega)]
        have e3 : l1.length + j - l1.length = j := by omega
        simp only [e3]
      have hef : (l1 ++ t :: l2).eraseIdx (l1.length + 1 + j) =
          l1 ++ t :: l2.eraseIdx j := by
        rw [List.eraseIdx_append_of_length_le (by omega) (t :: l2)]
        have e2 : l1.length + 1 + j - l1.length = j + 1 := by omega
        rw [e2, List.eraseIdx_cons_succ]
      have her : (l1 ++ l2).eraseIdx (l1.length + 1 + j - 1) =
          l1 ++ l2.eraseIdx j := by
        rw [e1, List.eraseIdx_append_of_length_le (by omega) l2]
        have e3 : l1.length + j - l1.length = j := by omega
        rw [e3]
      simp only [hgf, hgr, hef, her]
      rw [accelOf_append_zero_mass G l2[j] l1 (l2.eraseIdx j) t ht]
  · have hm : l1.length < (l1 ++ t :: l2).length := by
      simp [List.length_append]
    rw [derivAt_eq G _ _ hm]
    have hget : (l1 ++ t :: l2)[l1.length] = t := by
      rw [List.getElem_append_right (le_refl _)]
      simp
    have herase : (l1 ++ t :: l2).eraseIdx l1.length = l1 ++ l2 := by
      rw [List.eraseIdx_append_of_length_le (le_refl _) (t :: l2)]
      simp
    have hx : (accelOf G t (l1 ++ l2)).1 =
        ∑ j : Fin (l1 ++ l2).length,
          -G * ((l1 ++ l2).get j).M * (t.x - ((l1 ++ l2).get j).x) /
            ((t.x - ((l1 ++ l2).get j).x) ^ 2 +
              (t.y - ((l1 ++ l2).get j).y) ^ 2) ^ ((3 : ℝ) / 2) := by
      rw [accelOf_fst, sum_map_eq_sum_fin]
      exact Finset.sum_congr rfl fun j _ => contribX_claim_form G _ _
    have hy : (accelOf G t (l1 ++ l2)).2 =
        ∑ j : Fin (l1 ++ l2).length,
          -G * ((l1 ++ l2).get j).M * (t.y - ((l1 ++ l2).get j).y) /
            ((t.x - ((l1 ++ l2).get j).x) ^ 2 +
              (t.y - ((l1 ++ l2).get j).y) ^ 2) ^ ((3 : ℝ) / 2) := by
      rw [accelOf_snd, sum_map_eq_sum_fin]
      exact Finset.sum_congr rfl fun j _ => contribY_claim_form G _ _
    simp only [hget, herase, hx, hy]

/-- Zero-mass witness tracer body. -/
noncomputable def wT : Body := ⟨0, 5, 5, 1, 1⟩

theorem zero_mass_tracer_witness :
    wT.M = 0 ∧
    (∀ b ∈ [wB1] ++ [wB2], b.x ≠ wT.x ∨ b.y ≠ wT.y) ∧
    ((∀ i (hi : i < ([wB1] ++ wT :: [wB2]).length), i ≠ [wB1].length →
        derivAt 1 ([wB1] ++ wT :: [wB2]) i =
          derivAt 1 ([wB1] ++ [wB2])
            (if i < [wB1].length then i else i - 1)) ∧
      derivAt 1 ([wB1] ++ wT :: [wB2]) [wB1].length =
        (∑ j : Fin ([wB1] ++ [wB2] : List Body).length,
            -1 * (([wB1] ++ [wB2] : List Body).get j).M *
                (wT.x - (([wB1] ++ [wB2] : List Body).get j).x) /
              ((wT.x - (([wB1] ++ [wB2] : List Body).get j).x) ^ 2 +
                (wT.y - (([wB1] ++ [wB2] : List Body).get j).y) ^ 2) ^
                  ((3 : ℝ) / 2),
          ∑ j : Fin ([wB1] ++ [wB2] : List Body).length,
            -1 * (([wB1] ++ [wB2] : List Body).get j).M *
                (wT.y - (([wB1] ++ [wB2] : List Body).get j).y) /
              ((wT.x - (([wB1] ++ [wB2] : List Body).get j).x) ^ 2 +
                (wT.y - (([wB1] ++ [wB2] : List Body).get j).y) ^ 2) ^
                  ((3 : ℝ) / 2),
          wT.vx, wT.vy)) := by
  have ht : wT.M = 0 := rfl
  have hnc : ∀ b ∈ [wB1] ++ [wB2], b.x ≠ wT.x ∨ b.y ≠ wT.y := by
    intro b hb
    simp only [List.cons_append, List.nil_append, List.mem_cons,
      List.mem_singleton] at hb
    rcases hb with hb | hb | hb
    · subst hb
      exact Or.inl (by norm_num [wB1, wT])
    · subst hb
      exact Or.inl (by norm_num [wB2, wT])
    · cases hb
  exact ⟨ht, hnc, zero_mass_tracer 1 [wB1] [wB2] wT ht hnc⟩

/-! ## Claim C6 -/

/-- Claim C6: the kernel and the stepper are pure and deterministic — for
equal inputs the kernel, one step, and any number of iterated steps give
equal results; no state is carried between invocations. -/
theorem kernel_and_step_deterministic (G h : ℝ) (s t : List Body)
    (hst : s = t) :
    f1 G s = f1 G t ∧ rk4step G h s = rk4step G h t ∧
    ∀ n : ℕ, (rk4step G h)^[n] s = (rk4step G h)^[n] t := by
  subst hst
  exact ⟨rfl, rfl, fun _ => rfl⟩

theorem kernel_and_step_deterministic_witness :
    ([wB1, wB2] : List Body) = [wB1, wB2] ∧
    (f1 1 [wB1, wB2] = f1 1 [wB1, wB2] ∧
      rk4step 1 1 [wB1, wB2] = rk4step 1 1 [wB1, wB2] ∧
      ∀ n : ℕ, (rk4step 1 1)^[n] [wB1, wB2] = (rk4step 1 1)^[n] [wB1, wB2]) :=
  ⟨rfl, kernel_and_step_deterministic 1 1 [wB1, wB2] [wB1, wB2] rfl⟩

/-! ## Claim C7 -/

lemma tAfter_eq (h : ℝ) (n : ℕ) : tAfter h n = n * h := by
  induction n with
  | zero => simp [tAfter]
  | succ m ih =>
    rw [tAfter, ih]
    push_cast
    ring

/-- Claim C7: for `h > 0` and `t_f ≥ 0`, the loop `while t < t_f: …;
t += h` starting from `t = 0` terminates after exactly `⌈t_f/h⌉`
iterations (under the source's accumulation-based condition, in exact
arithmetic): the guard still holds before each of the first `⌈t_f/h⌉`
iterations and fails after them. -/
theorem loop_runs_ceil_iterations (h t_f : ℝ) (hh : 0 < h)
    (htf : 0 ≤ t_f) :
    (¬ tAfter h ⌈t_f / h⌉₊ < t_f) ∧
    ∀ m : ℕ, m < ⌈t_f / h⌉₊ → tAfter h m < t_f := by
  constructor
  · rw [tAfter_eq, not_lt]
    calc t_f = t_f / h * h := by field_simp
    _ ≤ (⌈t_f / h⌉₊ : ℝ) * h :=
      mul_le_mul_of_nonneg_right (Nat.le_ceil _) hh.le
  · intro m hm
    rw [tAfter_eq]
    have h3 : (m : ℝ) < t_f / h := Nat.lt_ceil.mp hm
    calc (m : ℝ) * h < t_f / h * h := mul_lt_mul_of_pos_right h3 hh
    _ = t_f := by field_simp

theorem loop_runs_ceil_iterations_witness :
    (0 : ℝ) < 2 ∧ (0 : ℝ) ≤ 5 ∧
    ((¬ tAfter 2 ⌈(5 : ℝ) / 2⌉₊ < 5) ∧
      ∀ m : ℕ, m < ⌈(5 : ℝ) / 2⌉₊ → tAfter 2 m < 5) :=
  ⟨by norm_num, by norm_num,
    loop_runs_ceil_iterations 2 5 (by norm_num) (by norm_num)⟩

/-! ## Claim C9 -/

/-- Claim C9: every operation of an integration step leaves every body's
mass unchanged: each intermediate body built by `make_increment_args`
carries exactly the mass of the corresponding original body, and the
end-of-step update writes only position and velocity, so the masses after
any number of steps equal the initial masses. -/
theorem masses_invariant (G h c : ℝ) (s : List Body)
    (dv_x dv_y vx vy : List ℝ) (n : ℕ) :
    (make_increment_args s dv_x dv_y vx vy c).map Body.M = s.map Body.M ∧
    ((rk4step G h)^[n] s).map Body.M = s.map Body.M :=
  ⟨make_increment_args_map_M s dv_x dv_y vx vy c,
    iterate_rk4step_map_M G h s n⟩

/-! ## Claim C10 -/

/-- Claim C10: for a single-body state the kernel returns zero
acceleration and the body's own velocity, and one RK4 step of size `h`
yields exactly `position + h·velocity` with the velocity unchanged
(uniform straight-line motion). -/
theorem single_body_moves_uniformly (G h : ℝ) (b : Body) :
    f1 G [b] = ⟨[0], [0], [b.vx], [b.vy]⟩ ∧
    rk4step G h [b] =
      [⟨b.M, b.x + h * b.vx, b.y + h * b.vy, b.vx, b.vy⟩] :=
  ⟨f1_singleton G b, rk4step_singleton G h b⟩

end NBody
